import Mathlib

set_option maxRecDepth 100000

/-!
Shallow embedding of the const-eval intrinsic evaluator
(compiler/rustc_const_eval/src/interpret/intrinsics.rs) and proofs about it.

Machine integers are modelled as `Nat` (raw bit patterns) or `Int` (signed
values) together with an explicit bit width `w`; wrap-around is explicit
(`% 2^w`).  Fallible interpreter steps return `Except Err _`.  Stateful
steps (bulk memory operations, dispatch) thread an explicit memory state.
-/

namespace CEval

/-- Error kinds raised by the intrinsic evaluator (the UB subkinds of the
interpreter's error taxonomy that these intrinsics can produce). -/
inductive Err where
  | differentIntegers
  | differentAllocations
  | unsignedOffsetFromOverflow
  | offsetFromUnderflow
  | offsetFromOverflow
  | outOfBounds
  | danglingPointer
  | sizeOverflow
  | nonzeroArgIsZero
  | exactDivHasRemainder
  | remainderByZero
  | divisionByZero
  | arithOverflow
  | rawEqWithProvenance
  | uninitRead
  | invalidArg
deriving DecidableEq

instance {ε α : Type} [DecidableEq ε] [DecidableEq α] : DecidableEq (Except ε α) :=
  fun a b =>
    match a, b with
    | .error x, .error y =>
        match decEq x y with
        | isTrue h => isTrue (h ▸ rfl)
        | isFalse h => isFalse (fun hh => by cases hh; exact h rfl)
    | .error _, .ok _ => isFalse (fun hh => by cases hh)
    | .ok _, .error _ => isFalse (fun hh => by cases hh)
    | .ok x, .ok y =>
        match decEq x y with
        | isTrue h => isTrue (h ▸ rfl)
        | isFalse h => isFalse (fun hh => by cases hh; exact h rfl)

/-- Signed minimum of a `w`-bit integer type (`Size::signed_int_min`). -/
def intMin (w : Nat) : Int := -(2 ^ (w - 1))

/-- Signed maximum of a `w`-bit integer type (`Size::signed_int_max`). -/
def intMax (w : Nat) : Int := 2 ^ (w - 1) - 1

/-- Unsigned maximum of a `w`-bit integer type (`Size::unsigned_int_max`). -/
def uintMax (w : Nat) : Int := 2 ^ w - 1

/-- Wrap an exact integer result to `w` bits, signed or unsigned
(the truncation performed by the machine's with-overflow binary ops). -/
def intWrap (w : Nat) (signed : Bool) (x : Int) : Int :=
  if signed then (x + 2 ^ (w - 1)) % 2 ^ w - 2 ^ (w - 1) else x % 2 ^ w

/-- Membership of a mathematical integer in the value range of a `w`-bit
signed/unsigned integer type. -/
def inRange (w : Nat) (signed : Bool) (x : Int) : Prop :=
  if signed then intMin w ≤ x ∧ x ≤ intMax w else 0 ≤ x ∧ x ≤ uintMax w

instance (w : Nat) (signed : Bool) (x : Int) : Decidable (inRange w signed x) := by
  unfold inRange; infer_instance

/-- Interpret a `pw`-bit unsigned bit pattern as a signed value
(`Scalar::to_target_isize`, i.e. two's-complement sign extension). -/
def toSigned (pw : Nat) (v : Nat) : Int :=
  if v < 2 ^ (pw - 1) then (v : Int) else (v : Int) - 2 ^ pw

/-- Bit length helper with explicit fuel (enough for 128-bit values). -/
def bitLenAux : Nat → Nat → Nat
  | 0, _ => 0
  | fuel + 1, n => if n = 0 then 0 else bitLenAux fuel (n / 2) + 1

/-- Number of bits needed to represent `n` (0 for 0), for `n < 2^128`. -/
def bitLen (n : Nat) : Nat := bitLenAux 128 n

/-- Leading-zero count of `n` viewed as a `u128` (`u128::leading_zeros`). -/
def leadingZeros128 (n : Nat) : Nat := 128 - bitLen n

/-- Trailing-zero helper with explicit fuel. -/
def tzAux : Nat → Nat → Nat
  | 0, _ => 0
  | fuel + 1, n => if n % 2 = 1 then 0 else tzAux fuel (n / 2) + 1

/-- Trailing-zero count of `n` viewed as a `u128` (`u128::trailing_zeros`;
returns 128 on input 0). -/
def trailingZeros128 (n : Nat) : Nat := tzAux 128 n

/-- Population-count helper with explicit fuel. -/
def popAux : Nat → Nat → Nat
  | 0, _ => 0
  | fuel + 1, n => n % 2 + popAux fuel (n / 2)

/-- Number of set bits of `n` viewed as a `u128` (`u128::count_ones`). -/
def popcount (n : Nat) : Nat := popAux 128 n

/-- Byte-swap helper with explicit fuel (16 bytes of a `u128`). -/
def bswapAux : Nat → Nat → Nat → Nat
  | 0, _, acc => acc
  | fuel + 1, n, acc => bswapAux fuel (n / 256) (acc * 256 + n % 256)

/-- Byte-swap of `n` viewed as a `u128` (`u128::swap_bytes`). -/
def swapBytes128 (n : Nat) : Nat := bswapAux 16 n 0

/-- Bit-reverse helper with explicit fuel (128 bits of a `u128`). -/
def brevAux : Nat → Nat → Nat → Nat
  | 0, _, acc => acc
  | fuel + 1, n, acc => brevAux fuel (n / 2) (acc * 2 + n % 2)

/-- Bit-reverse of `n` viewed as a `u128` (`u128::reverse_bits`). -/
def reverseBits128 (n : Nat) : Nat := brevAux 128 n 0

/-- Names of the pure numeric intrinsics dispatched to `numeric_intrinsic`. -/
inductive NumName where
  | ctpop
  | cttz
  | cttz_nonzero
  | ctlz
  | ctlz_nonzero
  | bswap
  | bitreverse
deriving DecidableEq

/-- The `numeric_intrinsic` evaluator.  `w` is the bit width of the source
layout and `bits` the raw (sign-ignored) bit pattern of the operand, which is
zero-extended into a 128-bit working width; `extra = 128 - w` is the padding
that is compensated for afterwards. -/
def numeric_intrinsic (name : NumName) (w : Nat) (bits : Nat) : Except Err Nat :=
  let extra := 128 - w
  match name with
  | .ctpop => .ok (popcount bits)
  | .ctlz_nonzero =>
      if bits = 0 then .error .nonzeroArgIsZero
      else .ok (leadingZeros128 bits - extra)
  | .cttz_nonzero =>
      if bits = 0 then .error .nonzeroArgIsZero
      else .ok (trailingZeros128 ((bits <<< extra) % 2 ^ 128) - extra)
  | .ctlz => .ok (leadingZeros128 bits - extra)
  | .cttz => .ok (trailingZeros128 ((bits <<< extra) % 2 ^ 128) - extra)
  | .bswap => .ok (swapBytes128 ((bits <<< extra) % 2 ^ 128) % 2 ^ w)
  | .bitreverse => .ok (reverseBits128 ((bits <<< extra) % 2 ^ 128) % 2 ^ w)

/-- The `saturating_arith` evaluator on `w`-bit operands: compute the result
with a with-overflow binary op; on overflow saturate (for signed operands the
bound is chosen from the sign of the first operand `l` alone; for unsigned
operands `add` saturates to the maximum and `sub` to zero). -/
def saturating_arith (isAdd : Bool) (w : Nat) (signed : Bool) (l r : Int) : Int :=
  let exact := if isAdd then l + r else l - r
  let val := intWrap w signed exact
  if val ≠ exact then
    if signed then
      if 0 ≤ l then intMax w else intMin w
    else
      if isAdd then uintMax w else 0
  else val

/-- The machine's `Rem` binary op on `w`-bit integer operands (collaborator
primitive: raises UB on division by zero and on `MIN % -1` overflow;
truncated remainder as in Rust). -/
def binaryRem (w : Nat) (signed : Bool) (a b : Int) : Except Err Int :=
  if b = 0 then .error .remainderByZero
  else if signed = true ∧ a = intMin w ∧ b = -1 then .error .arithOverflow
  else .ok (a.tmod b)

/-- The machine's `Div` binary op on `w`-bit integer operands (collaborator
primitive: raises UB on division by zero and on `MIN / -1` overflow;
truncating division as in Rust). -/
def binaryDiv (w : Nat) (signed : Bool) (a b : Int) : Except Err Int :=
  if b = 0 then .error .divisionByZero
  else if signed = true ∧ a = intMin w ∧ b = -1 then .error .arithOverflow
  else .ok (a.tdiv b)

/-- The `exact_div` evaluator: first compute `a % b`; a nonzero remainder is
UB; otherwise let `Div` do its job. -/
def exact_div (w : Nat) (signed : Bool) (a b : Int) : Except Err Int :=
  match binaryRem w signed a b with
  | .error e => .error e
  | .ok rem =>
      if rem ≠ 0 then .error .exactDivHasRemainder
      else binaryDiv w signed a b

/-- The `rotate_left`/`rotate_right` arm of `emulate_intrinsic`: the value is
a `w`-bit pattern held in a `u128` working width, the raw shift is reduced
modulo `w`, both partial shifts are `u128` operations (hence the `% 2^128`),
and the result is truncated back to `w` bits. -/
def rotate (isLeft : Bool) (w : Nat) (valBits rawShift : Nat) : Nat :=
  let shiftBits := rawShift % w
  let invShiftBits := (w - shiftBits) % w
  let resultBits :=
    if isLeft then ((valBits <<< shiftBits) % 2 ^ 128) ||| (valBits >>> invShiftBits)
    else (valBits >>> shiftBits) ||| ((valBits <<< invShiftBits) % 2 ^ 128)
  resultBits % 2 ^ w

/-- A byte stored in an allocation: its value, an optional provenance tag
(the allocation id a stored pointer refers to), and an initialization flag
(the per-byte init bitmap). -/
structure AByte where
  val : Nat
  prov : Option Nat
  init : Bool
deriving DecidableEq

/-- An allocation: a base address (meaningful on machines where pointer
offsets are absolute addresses) and an owned contiguous byte buffer. -/
structure Alloc where
  base : Nat
  bytes : List AByte
deriving DecidableEq

/-- Size in bytes of an allocation. -/
def Alloc.size (a : Alloc) : Nat := a.bytes.length

/-- The interpreter's memory: live allocations keyed by allocation id, and
the next fresh allocation id. -/
structure Mem where
  allocs : List (Nat × Alloc)
  next : Nat
deriving DecidableEq

/-- Look up a live allocation by id. -/
def Mem.find (m : Mem) (id : Nat) : Option Alloc :=
  (m.allocs.find? (fun p => p.1 == id)).map Prod.snd

/-- Replace the contents of allocation `id`. -/
def Mem.setAlloc (m : Mem) (id : Nat) (a : Alloc) : Mem :=
  { m with allocs := m.allocs.map (fun p => if p.1 == id then (id, a) else p) }

/-- A pointer: either a bare integer address (no provenance) or a pointer
into allocation `id` at byte offset `off`. -/
inductive Ptr where
  | bare (addr : Nat)
  | alloc (id : Nat) (off : Nat)
deriving DecidableEq

/-- Absolute address of a pointer (meaningful on machines with
`Provenance::OFFSET_IS_ADDR`): base address of its allocation plus offset. -/
def Ptr.addr (m : Mem) : Ptr → Nat
  | .bare a => a
  | .alloc id off =>
      (match m.find id with
       | some al => al.base
       | none => 0) + off

/-- Modelled from the spec: the memory model's `check_bounds` primitive
(`check_ptr_access`), which is consumed, not defined, by the intrinsics file.
A zero-length access is allowed at any offset; otherwise the whole byte range
`[off, off+n)` must lie inside a live allocation (one-past-the-end included). -/
def checkPtrAccess (m : Mem) (p : Ptr) (n : Nat) : Except Err Unit :=
  if n = 0 then .ok ()
  else
    match p with
    | .bare _ => .error .outOfBounds
    | .alloc id off =>
        match m.find id with
        | none => .error .danglingPointer
        | some al => if off + n ≤ al.size then .ok () else .error .outOfBounds

/-- Modelled from the spec: reading `n` bytes (value, provenance and init
metadata) through the memory model; fails on bare pointers, dangling
allocation ids and out-of-bounds ranges. -/
def readBytesMem (m : Mem) (p : Ptr) (n : Nat) : Except Err (List AByte) :=
  if n = 0 then .ok []
  else
    match p with
    | .bare _ => .error .outOfBounds
    | .alloc id off =>
        match m.find id with
        | none => .error .danglingPointer
        | some al =>
            if off + n ≤ al.size then .ok ((al.bytes.drop off).take n)
            else .error .outOfBounds

/-- Modelled from the spec: writing a byte list (with metadata) through the
memory model. -/
def writeBytesMem (m : Mem) (p : Ptr) (bs : List AByte) : Except Err Mem :=
  if bs.length = 0 then .ok m
  else
    match p with
    | .bare _ => .error .outOfBounds
    | .alloc id off =>
        match m.find id with
        | none => .error .danglingPointer
        | some al =>
            if off + bs.length ≤ al.size then
              .ok (m.setAlloc id
                ⟨al.base, al.bytes.take off ++ bs ++ al.bytes.drop (off + bs.length)⟩)
            else .error .outOfBounds

/-- Modelled from the spec: `copy_op`/`copy_bytes` — a type-aware copy of
`n` bytes (value, provenance and init metadata) from `src` to `dst`. -/
def copyOp (m : Mem) (src dst : Ptr) (n : Nat) : Except Err Mem :=
  match readBytesMem m src n with
  | .error e => .error e
  | .ok bs => writeBytesMem m dst bs

/-- Modelled from the spec: `allocate_scratch` — create a fresh allocation of
`size` uninitialized bytes; always succeeds and returns a pointer to its
start. -/
def Mem.allocate (m : Mem) (size : Nat) : Ptr × Mem :=
  (.alloc m.next 0,
   { allocs := m.allocs ++ [(m.next, ⟨0, List.replicate size ⟨0, none, false⟩⟩)],
     next := m.next + 1 })

/-- Modelled from the spec: `deallocate_scratch` (`deallocate_ptr`) — remove
a live allocation given a pointer to its start. -/
def Mem.deallocate (m : Mem) (p : Ptr) : Except Err Mem :=
  match p with
  | .alloc id 0 =>
      match m.find id with
      | some _ => .ok { m with allocs := m.allocs.filter (fun q => q.1 != id) }
      | none => .error .danglingPointer
  | _ => .error .invalidArg

/-- The `typed_swap` intrinsic: allocate a scratch place of the operands'
layout, copy `left → scratch → right → left` (sic: the third copy moves the
scratch into `right`), then deallocate the scratch.  Each step propagates its
error with the memory as it stood at that step. -/
def typed_swap (layoutSize : Nat) (left right : Ptr) (m : Mem) :
    Except Err Unit × Mem :=
  let alloced := m.allocate layoutSize
  let temp := alloced.1
  let m1 := alloced.2
  match copyOp m1 left temp layoutSize with
  | .error e => (.error e, m1)
  | .ok m2 =>
      match copyOp m2 right left layoutSize with
      | .error e => (.error e, m2)
      | .ok m3 =>
          match copyOp m3 temp right layoutSize with
          | .error e => (.error e, m3)
          | .ok m4 =>
              match m4.deallocate temp with
              | .error e => (.error e, m4)
              | .ok m5 => (.ok (), m5)

/-- Modelled from the spec: the overflow-checked multiplication
`Size::checked_mul` computing `elemSize * count`, which fails when the total
byte length overflows the `pw`-bit address-space width. -/
def sizeCheckedMul (pw elemSize count : Nat) : Option Nat :=
  if elemSize * count < 2 ^ pw then some (elemSize * count) else none

/-- Modelled from the spec: the alignment check `check_ptr_align` on a
pointer's absolute address. -/
def checkPtrAlign (m : Mem) (p : Ptr) (align : Nat) : Except Err Unit :=
  if Ptr.addr m p % align = 0 then .ok () else .error .invalidArg

/-- The `copy`/`copy_nonoverlapping` intrinsic: compute the total length
`count * elemSize` with an overflow-checked multiplication (UB "size
overflow" on overflow), check both pointers' alignment, then delegate the
byte copy.  Errors leave the memory unchanged up to the failing step. -/
def copy_intrinsic (pw elemSize align : Nat) (src dst : Ptr) (count : Nat)
    (nonoverlapping : Bool) (m : Mem) : Except Err Unit × Mem :=
  match sizeCheckedMul pw elemSize count with
  | none => (.error .sizeOverflow, m)
  | some len =>
      match checkPtrAlign m src align with
      | .error e => (.error e, m)
      | .ok () =>
          match checkPtrAlign m dst align with
          | .error e => (.error e, m)
          | .ok () =>
              match copyOp m src dst len with
              | .error e => (.error e, m)
              | .ok m' => (.ok (), m')

/-- The `write_bytes` intrinsic: same overflow-checked length computation as
`copy`, then fill the destination with `len` copies of the byte. -/
def write_bytes_intrinsic (pw elemSize : Nat) (dst : Ptr) (byte : Nat)
    (count : Nat) (m : Mem) : Except Err Unit × Mem :=
  match sizeCheckedMul pw elemSize count with
  | none => (.error .sizeOverflow, m)
  | some len =>
      match writeBytesMem m dst (List.replicate len ⟨byte % 256, none, true⟩) with
      | .error e => (.error e, m)
      | .ok m' => (.ok (), m')

/-- Resolve a pointer's provenance (`ptr_try_get_alloc_id`): a pointer with
provenance yields its allocation id and offset, a bare pointer yields its
raw address as the error value. -/
def tryGetAllocId : Ptr → Except Nat (Nat × Nat)
  | .bare a => .error a
  | .alloc id off => .ok (id, off)

/-- The provenance-resolution phase of the `ptr_offset_from` arm: produce a
pair of offsets relative to the same base, or fail.  `oia` is the machine's
`Provenance::OFFSET_IS_ADDR` flag.  Arm order follows the source: two bare
pointers must be numerically equal (else UB "different integers"); otherwise
equal absolute addresses on an `oia` machine yield `(0, 0)`; otherwise both
pointers must be into the same allocation (else UB "different
allocations"). -/
def offsetsForDistance (oia : Bool) (m : Mem) (a b : Ptr) :
    Except Err (Nat × Nat) :=
  match tryGetAllocId a, tryGetAllocId b with
  | .error x, .error y =>
      if x ≠ y then .error .differentIntegers else .ok (x, y)
  | ta, tb =>
      if oia = true ∧ Ptr.addr m a = Ptr.addr m b then .ok (0, 0)
      else
        match ta, tb with
        | .ok (aid, aoff), .ok (bid, boff) =>
            if aid = bid then .ok (aoff, boff) else .error .differentAllocations
        | _, _ => .error .differentAllocations

/-- Tail of the `ptr_offset_from` arm once the byte distance `dist` is known:
check that the span between the two pointers is dereferenceable, then divide
by the pointee size via `exact_div` on the return layout (`usize` for the
unsigned variant, `isize` for the signed one). -/
def distanceTail (pw : Nat) (m : Mem) (unsigned : Bool) (S : Nat)
    (a b : Ptr) (dist : Int) : Except Err Int :=
  let minPtr := if 0 ≤ dist then b else a
  match checkPtrAccess m minPtr dist.natAbs with
  | .error e => .error e
  | .ok () => exact_div pw (!unsigned) dist (S : Int)

/-- The `ptr_offset_from`/`ptr_offset_from_unsigned` arm of
`emulate_intrinsic`.  `a` is the first argument and `b` the second, `S` the
pointee size in bytes and `pw` the pointer width in bits.  The byte distance
is the `usize` subtraction `a_offset - b_offset` with explicit overflow
detection, re-interpreted as `isize` for the signed variant. -/
def ptr_offset_from (oia : Bool) (pw : Nat) (m : Mem) (unsigned : Bool)
    (S : Nat) (a b : Ptr) : Except Err Int :=
  match offsetsForDistance oia m a b with
  | .error e => .error e
  | .ok (aOff, bOff) =>
      let val := (2 ^ pw + aOff - bOff) % 2 ^ pw
      if aOff < bOff then
        if unsigned then .error .unsignedOffsetFromOverflow
        else
          let dist := toSigned pw val
          if 0 ≤ dist ∨ dist = -(2 ^ (pw - 1) : Int) then
            .error .offsetFromUnderflow
          else distanceTail pw m unsigned S a b dist
      else
        let dist := toSigned pw val
        if dist < 0 then .error .offsetFromOverflow
        else distanceTail pw m unsigned S a b dist

/-- Byte range extraction for `raw_eq`: a zero-sized access yields the empty
byte list; otherwise the range must be a live in-bounds range, must carry no
provenance (else UB), and is read with provenance stripped (reading
uninitialized bytes is an error). -/
def rawEqGetBytes (m : Mem) (p : Ptr) (size : Nat) : Except Err (List Nat) :=
  if size = 0 then .ok []
  else
    match p with
    | .bare _ => .error .danglingPointer
    | .alloc id off =>
        match m.find id with
        | none => .error .danglingPointer
        | some al =>
            if off + size ≤ al.size then
              let range := (al.bytes.drop off).take size
              if range.any (fun b => b.prov.isSome) then
                .error .rawEqWithProvenance
              else if range.all (fun b => b.init) then
                .ok (range.map (fun b => b.val))
              else .error .uninitRead
            else .error .outOfBounds

/-- The `raw_eq` intrinsic on a sized type of `size` bytes: read both byte
ranges (left first), failing if either carries provenance, and compare them
byte for byte. -/
def raw_eq_intrinsic (m : Mem) (size : Nat) (lhs rhs : Ptr) :
    Except Err Bool :=
  match rawEqGetBytes m lhs size with
  | .error e => .error e
  | .ok lb =>
      match rawEqGetBytes m rhs size with
      | .error e => .error e
      | .ok rb => .ok (lb == rb)

/-- Three-way lexicographic comparison of byte lists encoded as -1/0/+1
(`Ord::cmp` on byte slices cast through `Ordering`). -/
def listCompare : List Nat → List Nat → Int
  | [], [] => 0
  | [], _ :: _ => -1
  | _ :: _, [] => 1
  | x :: xs, y :: ys =>
      if x < y then -1 else if y < x then 1 else listCompare xs ys

/-- Reading `n` bytes with provenance stripped for `compare_bytes`
(`read_bytes_ptr_strip_provenance`): provenance is irrelevant, but the range
must be live, in bounds and initialized. -/
def readBytesStripProv (m : Mem) (p : Ptr) (n : Nat) : Except Err (List Nat) :=
  match readBytesMem m p n with
  | .error e => .error e
  | .ok bs =>
      if bs.all (fun b => b.init) then .ok (bs.map (fun b => b.val))
      else .error .uninitRead

/-- The `compare_bytes` intrinsic: read `n` raw bytes from each pointer and
return the three-way order as -1/0/+1. -/
def compare_bytes_intrinsic (m : Mem) (left right : Ptr) (n : Nat) :
    Except Err Int :=
  match readBytesStripProv m left n with
  | .error e => .error e
  | .ok lb =>
      match readBytesStripProv m right n with
      | .error e => .error e
      | .ok rb => .ok (listCompare lb rb)

/-- An already-evaluated operand handle passed to the dispatch facade. -/
inductive Operand where
  | scalar (bits : Nat)
  | intval (v : Int)
  | ptr (p : Ptr)
deriving DecidableEq

/-- The state the dispatch facade acts on: the interpreter memory and the
destination place (modelled as a separate cell that handled intrinsics write
their result into). -/
structure EvalState where
  mem : Mem
  dest : Option Operand
deriving DecidableEq

/-- Intrinsic names the dispatch entry point can receive; `other` stands for
any name it does not implement. -/
inductive IntrName where
  | ctpop
  | cttz
  | cttz_nonzero
  | ctlz
  | ctlz_nonzero
  | bswap
  | bitreverse
  | saturating_add
  | saturating_sub
  | exact_div
  | rotate_left
  | rotate_right
  | copy
  | write_bytes
  | compare_bytes
  | raw_eq
  | typed_swap
  | ptr_offset_from
  | ptr_offset_from_unsigned
  | other (code : Nat)
deriving DecidableEq

/-- Layout and machine context of one intrinsic call: pointer width `pw` in
bits, scalar width `w` in bits and signedness of the type argument, byte size
of the pointee type argument, its alignment, and the machine's
`OFFSET_IS_ADDR` flag. -/
structure CallCtx where
  pw : Nat
  w : Nat
  signed : Bool
  elemSize : Nat
  align : Nat
  oia : Bool
deriving DecidableEq

/-- Extract argument `i` as a raw scalar bit pattern. -/
def getScalar (args : List Operand) (i : Nat) : Except Err Nat :=
  match args.get? i with
  | some (.scalar b) => .ok b
  | _ => .error .invalidArg

/-- Extract argument `i` as a signed immediate. -/
def getInt (args : List Operand) (i : Nat) : Except Err Int :=
  match args.get? i with
  | some (.intval v) => .ok v
  | _ => .error .invalidArg

/-- Extract argument `i` as a pointer. -/
def getPtr (args : List Operand) (i : Nat) : Except Err Ptr :=
  match args.get? i with
  | some (.ptr p) => .ok p
  | _ => .error .invalidArg

/-- Shared body of the seven `numeric_intrinsic` dispatch arms: read the
scalar operand, evaluate, write the result to the destination. -/
def runNumeric (nn : NumName) (ctx : CallCtx) (args : List Operand)
    (st : EvalState) : Except Err Bool × EvalState :=
  match getScalar args 0 with
  | .error e => (.error e, st)
  | .ok bits =>
      match numeric_intrinsic nn ctx.w bits with
      | .error e => (.error e, st)
      | .ok out => (.ok true, { st with dest := some (.scalar out) })

/-- Shared body of the `saturating_add`/`saturating_sub` dispatch arms. -/
def runSaturating (isAdd : Bool) (ctx : CallCtx) (args : List Operand)
    (st : EvalState) : Except Err Bool × EvalState :=
  match getInt args 0, getInt args 1 with
  | .ok l, .ok r =>
      (.ok true,
       { st with dest := some (.intval (saturating_arith isAdd ctx.w ctx.signed l r)) })
  | .error e, _ => (.error e, st)
  | _, .error e => (.error e, st)

/-- Shared body of the `rotate_left`/`rotate_right` dispatch arms. -/
def runRotate (isLeft : Bool) (ctx : CallCtx) (args : List Operand)
    (st : EvalState) : Except Err Bool × EvalState :=
  match getScalar args 0, getScalar args 1 with
  | .ok v, .ok s =>
      (.ok true, { st with dest := some (.scalar (rotate isLeft ctx.w v s)) })
  | .error e, _ => (.error e, st)
  | _, .error e => (.error e, st)

/-- The dispatch facade `emulate_intrinsic`: route the already-evaluated
arguments to the sub-evaluator named by `name`, writing results through the
state; report `true` when the intrinsic was handled and `false`
(the Unhandled outcome) when the name is not implemented here. -/
def emulate_intrinsic (ctx : CallCtx) (name : IntrName) (args : List Operand)
    (st : EvalState) : Except Err Bool × EvalState :=
  match name with
  | .ctpop => runNumeric .ctpop ctx args st
  | .cttz => runNumeric .cttz ctx args st
  | .cttz_nonzero => runNumeric .cttz_nonzero ctx args st
  | .ctlz => runNumeric .ctlz ctx args st
  | .ctlz_nonzero => runNumeric .ctlz_nonzero ctx args st
  | .bswap => runNumeric .bswap ctx args st
  | .bitreverse => runNumeric .bitreverse ctx args st
  | .saturating_add => runSaturating true ctx args st
  | .saturating_sub => runSaturating false ctx args st
  | .exact_div =>
      match getInt args 0, getInt args 1 with
      | .ok a, .ok b =>
          match exact_div ctx.w ctx.signed a b with
          | .error e => (.error e, st)
          | .ok v => (.ok true, { st with dest := some (.intval v) })
      | .error e, _ => (.error e, st)
      | _, .error e => (.error e, st)
  | .rotate_left => runRotate true ctx args st
  | .rotate_right => runRotate false ctx args st
  | .copy =>
      match getPtr args 0, getPtr args 1, getScalar args 2 with
      | .ok src, .ok dst, .ok count =>
          match copy_intrinsic ctx.pw ctx.elemSize ctx.align src dst count false st.mem with
          | (.error e, m') => (.error e, { st with mem := m' })
          | (.ok _, m') => (.ok true, { st with mem := m' })
      | .error e, _, _ => (.error e, st)
      | _, .error e, _ => (.error e, st)
      | _, _, .error e => (.error e, st)
  | .write_bytes =>
      match getPtr args 0, getScalar args 1, getScalar args 2 with
      | .ok dst, .ok byte, .ok count =>
          match write_bytes_intrinsic ctx.pw ctx.elemSize dst byte count st.mem with
          | (.error e, m') => (.error e, { st with mem := m' })
          | (.ok _, m') => (.ok true, { st with mem := m' })
      | .error e, _, _ => (.error e, st)
      | _, .error e, _ => (.error e, st)
      | _, _, .error e => (.error e, st)
  | .compare_bytes =>
      match getPtr args 0, getPtr args 1, getScalar args 2 with
      | .ok l, .ok r, .ok n =>
          match compare_bytes_intrinsic st.mem l r n with
          | .error e => (.error e, st)
          | .ok v => (.ok true, { st with dest := some (.intval v) })
      | .error e, _, _ => (.error e, st)
      | _, .error e, _ => (.error e, st)
      | _, _, .error e => (.error e, st)
  | .raw_eq =>
      match getPtr args 0, getPtr args 1 with
      | .ok l, .ok r =>
          match raw_eq_intrinsic st.mem ctx.elemSize l r with
          | .error e => (.error e, st)
          | .ok b => (.ok true, { st with dest := some (.scalar (if b then 1 else 0)) })
      | .error e, _ => (.error e, st)
      | _, .error e => (.error e, st)
  | .typed_swap =>
      match getPtr args 0, getPtr args 1 with
      | .ok l, .ok r =>
          match typed_swap ctx.elemSize l r st.mem with
          | (.error e, m') => (.error e, { st with mem := m' })
          | (.ok _, m') => (.ok true, { st with mem := m' })
      | .error e, _ => (.error e, st)
      | _, .error e => (.error e, st)
  | .ptr_offset_from =>
      match getPtr args 0, getPtr args 1 with
      | .ok a, .ok b =>
          match ptr_offset_from ctx.oia ctx.pw st.mem false ctx.elemSize a b with
          | .error e => (.error e, st)
          | .ok v => (.ok true, { st with dest := some (.intval v) })
      | .error e, _ => (.error e, st)
      | _, .error e => (.error e, st)
  | .ptr_offset_from_unsigned =>
      match getPtr args 0, getPtr args 1 with
      | .ok a, .ok b =>
          match ptr_offset_from ctx.oia ctx.pw st.mem true ctx.elemSize a b with
          | .error e => (.error e, st)
          | .ok v => (.ok true, { st with dest := some (.intval v) })
      | .error e, _ => (.error e, st)
      | _, .error e => (.error e, st)
  | .other _ => (.ok false, st)

/-- A 16-byte allocation (id 0) of initialized zero bytes, base address 0. -/
def mem16 : Mem :=
  { allocs := [(0, ⟨0, List.replicate 16 ⟨0, none, true⟩⟩)], next := 1 }

/-- A 2-byte allocation (id 0) holding initialized bytes 10 and 20. -/
def memPair : Mem :=
  { allocs := [(0, ⟨0, [⟨10, none, true⟩, ⟨20, none, true⟩]⟩)], next := 1 }

/-- A 4-byte all-zero initialized allocation without provenance. -/
def zeros4 : Alloc := ⟨0, List.replicate 4 ⟨0, none, true⟩⟩

/-- A 4-byte allocation whose first byte carries provenance (a stored
pointer fragment). -/
def provTainted4 : Alloc :=
  ⟨0, ⟨0, some 5, true⟩ ::
      ⟨0, none, true⟩ :: ⟨0, none, true⟩ :: ⟨0, none, true⟩ :: []⟩

/-- Memory for the raw_eq examples: two distinct all-zero 4-byte allocations
(ids 0 and 1) and a provenance-tainted 4-byte allocation (id 2). -/
def memRawEq : Mem :=
  { allocs := [(0, zeros4), (1, zeros4), (2, provTainted4)], next := 3 }

/- ------------------------------------------------------------------ -/
/- Theorems.                                                          -/
/- ------------------------------------------------------------------ -/

theorem intWrap_eq_self_iff (w : Nat) (signed : Bool) (x : Int) (hw : 0 < w) :
    intWrap w signed x = x ↔ inRange w signed x := by
  have h2 : (2 : Int) ^ w = 2 ^ (w - 1) * 2 := by
    rw [← pow_succ]
    congr 1
    omega
  have hp : (0 : Int) < 2 ^ w := by positivity
  have hp1 : (0 : Int) < 2 ^ (w - 1) := by positivity
  unfold intWrap inRange intMin intMax uintMax
  cases signed with
  | false =>
      simp only [Bool.false_eq_true, if_false]
      constructor
      · intro h
        have h1 := Int.emod_nonneg x (show (2 : Int) ^ w ≠ 0 by omega)
        have h2' := Int.emod_lt_of_pos x hp
        omega
      · intro h
        exact Int.emod_eq_of_lt h.1 (by omega)
  | true =>
      simp only [if_true]
      constructor
      · intro h
        have heq : (x + 2 ^ (w - 1)) % 2 ^ w = x + 2 ^ (w - 1) := by omega
        have h1 := Int.emod_nonneg (x + 2 ^ (w - 1)) (show (2 : Int) ^ w ≠ 0 by omega)
        have h2' := Int.emod_lt_of_pos (x + 2 ^ (w - 1)) hp
        omega
      · intro h
        have heq : (x + 2 ^ (w - 1)) % 2 ^ w = x + 2 ^ (w - 1) :=
          Int.emod_eq_of_lt (by omega) (by omega)
        omega

/-- C10: an intrinsic name the dispatch entry point does not implement
produces the Unhandled outcome `Ok(false)` with the destination unwritten and
the memory state exactly as it was before the dispatch. -/
theorem dispatch_unhandled (ctx : CallCtx) (code : Nat) (args : List Operand)
    (st : EvalState) :
    emulate_intrinsic ctx (.other code) args st = (.ok false, st) := rfl

/-- C9: `exact_div` computes `a % b` and fails with UB when the remainder is
nonzero; otherwise it returns `a / b` (for operands on which the underlying
division primitive itself is defined, i.e. `b ≠ 0` and not `MIN / -1`). -/
theorem exact_div_spec (w : Nat) (signed : Bool) (a b : Int)
    (hb : b ≠ 0) (hmin : ¬(signed = true ∧ a = intMin w ∧ b = -1)) :
    (a.tmod b ≠ 0 → exact_div w signed a b = .error .exactDivHasRemainder)
    ∧ (a.tmod b = 0 → exact_div w signed a b = .ok (a.tdiv b)) := by
  unfold exact_div binaryRem binaryDiv
  rw [if_neg hb, if_neg hmin]
  constructor
  · intro h
    simp [h]
  · intro h
    simp [h, hb, hmin]

theorem exact_div_spec_witness :
    ((10 : Int).tmod 5 = 0 ∧ exact_div 32 true 10 5 = .ok 2)
    ∧ ((10 : Int).tmod 3 ≠ 0
       ∧ exact_div 32 true 10 3 = .error .exactDivHasRemainder) := by
  constructor
  · refine ⟨by decide, ?_⟩
    have h := (exact_div_spec 32 true 10 5 (by decide) (by decide)).2 (by decide)
    simpa using h
  · refine ⟨by decide, ?_⟩
    exact (exact_div_spec 32 true 10 3 (by decide) (by decide)).1 (by decide)

/-- C8: the "assume nonzero" leading/trailing-zero-count variants fail with a
UB error on input 0 and agree with the unchecked variants on every nonzero
input; the unchecked variants return the bit width `w` on input 0. -/
theorem ctz_clz_nonzero_spec (w : Nat) (hw : 0 < w) (h128 : w ≤ 128) :
    (numeric_intrinsic .ctlz_nonzero w 0 = .error .nonzeroArgIsZero
       ∧ numeric_intrinsic .cttz_nonzero w 0 = .error .nonzeroArgIsZero)
    ∧ (∀ bits : Nat, bits ≠ 0 →
         numeric_intrinsic .ctlz_nonzero w bits = numeric_intrinsic .ctlz w bits
         ∧ numeric_intrinsic .cttz_nonzero w bits = numeric_intrinsic .cttz w bits)
    ∧ (numeric_intrinsic .ctlz w 0 = .ok w
       ∧ numeric_intrinsic .cttz w 0 = .ok w) := by
  refine ⟨⟨by simp [numeric_intrinsic], by simp [numeric_intrinsic]⟩, ?_, ?_, ?_⟩
  · intro bits hbits
    constructor <;> simp [numeric_intrinsic, hbits]
  · have hlz : leadingZeros128 0 = 128 := rfl
    simp [numeric_intrinsic, hlz]
    omega
  · have htz : trailingZeros128 0 = 128 := by decide
    simp [numeric_intrinsic, Nat.zero_shiftLeft, htz]
    omega

theorem ctz_clz_nonzero_spec_witness :
    0 < 8 ∧ 8 ≤ 128
    ∧ numeric_intrinsic .ctlz_nonzero 8 0 = .error .nonzeroArgIsZero
    ∧ numeric_intrinsic .ctlz_nonzero 8 5 = numeric_intrinsic .ctlz 8 5
    ∧ numeric_intrinsic .ctlz 8 0 = .ok 8 := by
  have h := ctz_clz_nonzero_spec 8 (by decide) (by decide)
  exact ⟨by decide, by decide, h.1.1, (h.2.1 5 (by decide)).1, h.2.2.1⟩

/-- C5: for the `copy` and `write_bytes` intrinsics the total byte length
`count * sizeof(pointee)` goes through an overflow-checked multiplication,
and on overflow of the address-space width the intrinsic fails with UB
"size overflow" with the memory left exactly as it was (nothing read or
written). -/
theorem copy_write_bytes_size_overflow (pw elemSize align : Nat)
    (src dst : Ptr) (count : Nat) (nonoverlapping : Bool) (byte : Nat)
    (m : Mem) (hov : 2 ^ pw ≤ elemSize * count) :
    copy_intrinsic pw elemSize align src dst count nonoverlapping m
      = (.error .sizeOverflow, m)
    ∧ write_bytes_intrinsic pw elemSize dst byte count m
      = (.error .sizeOverflow, m) := by
  have h : sizeCheckedMul pw elemSize count = none := by
    unfold sizeCheckedMul
    rw [if_neg]
    omega
  unfold copy_intrinsic write_bytes_intrinsic
  rw [h]
  exact ⟨rfl, rfl⟩

theorem copy_write_bytes_size_overflow_witness :
    2 ^ 8 ≤ 16 * 16
    ∧ copy_intrinsic 8 16 1 (.alloc 0 0) (.alloc 0 0) 16 false mem16
        = (.error .sizeOverflow, mem16)
    ∧ write_bytes_intrinsic 8 16 (.alloc 0 0) 7 16 mem16
        = (.error .sizeOverflow, mem16) := by
  have h := copy_write_bytes_size_overflow 8 16 1 (.alloc 0 0) (.alloc 0 0) 16
    false 7 mem16 (by decide)
  exact ⟨by decide, h.1, h.2⟩

/-- C4: saturating add/sub return the exact (in particular, the wrapping)
result when no overflow occurs; on signed overflow the bound is chosen from
the sign of the first operand alone (max if `0 ≤ l`, min otherwise); on
unsigned overflow `add` saturates to the unsigned maximum and `sub` to
zero. -/
theorem saturating_arith_spec (isAdd : Bool) (w : Nat) (signed : Bool)
    (l r : Int) (hw : 0 < w)
    (hl : inRange w signed l) (hr : inRange w signed r) :
    (inRange w signed (if isAdd then l + r else l - r) →
       saturating_arith isAdd w signed l r = (if isAdd then l + r else l - r))
    ∧ (¬ inRange w signed (if isAdd then l + r else l - r) → signed = true →
        0 ≤ l → saturating_arith isAdd w signed l r = intMax w)
    ∧ (¬ inRange w signed (if isAdd then l + r else l - r) → signed = true →
        l < 0 → saturating_arith isAdd w signed l r = intMin w)
    ∧ (¬ inRange w signed (if isAdd then l + r else l - r) → signed = false →
        isAdd = true → saturating_arith isAdd w signed l r = uintMax w)
    ∧ (¬ inRange w signed (if isAdd then l + r else l - r) → signed = false →
        isAdd = false → saturating_arith isAdd w signed l r = 0) := by
  have key := intWrap_eq_self_iff w signed (if isAdd then l + r else l - r) hw
  refine ⟨?_, ?_, ?_, ?_, ?_⟩
  · intro h
    have heq := key.mpr h
    unfold saturating_arith
    simp [heq]
  · intro h hs hl0
    subst hs
    have hne : intWrap w true (if isAdd then l + r else l - r)
        ≠ (if isAdd then l + r else l - r) := fun hc => h (key.mp hc)
    unfold saturating_arith
    simp [hne, hl0]
  · intro h hs hl0
    subst hs
    have hne : intWrap w true (if isAdd then l + r else l - r)
        ≠ (if isAdd then l + r else l - r) := fun hc => h (key.mp hc)
    have hll : ¬ (0 : Int) ≤ l := by omega
    unfold saturating_arith
    simp [hne, hll]
  · intro h hs ha
    subst hs
    subst ha
    have hne : intWrap w false (l + r) ≠ (l + r) := by
      intro hc
      exact h (key.mp (by simpa using hc))
    unfold saturating_arith
    simp [hne]
  · intro h hs ha
    subst hs
    have ha' : isAdd = false := ha
    subst ha'
    have hne : intWrap w false (l - r) ≠ (l - r) := by
      intro hc
      exact h (key.mp (by simpa using hc))
    unfold saturating_arith
    simp [hne]

theorem saturating_arith_spec_witness :
    (saturating_arith true 8 true 120 50 = 127
       ∧ saturating_arith true 8 true (-120) (-50) = -128)
    ∧ (saturating_arith false 8 false 10 20 = 0
       ∧ saturating_arith true 8 false 200 100 = 255) := by
  refine ⟨⟨?_, ?_⟩, ?_, ?_⟩
  · have h := (saturating_arith_spec true 8 true 120 50 (by decide) (by decide)
      (by decide)).2.1 (by decide) rfl (by decide)
    simpa [intMax] using h
  · have h := (saturating_arith_spec true 8 true (-120) (-50) (by decide)
      (by decide) (by decide)).2.2.1 (by decide) rfl (by decide)
    simpa [intMin] using h
  · have h := (saturating_arith_spec false 8 false 10 20 (by decide) (by decide)
      (by decide)).2.2.2.2 (by decide) rfl rfl
    simpa using h
  · have h := (saturating_arith_spec true 8 false 200 100 (by decide) (by decide)
      (by decide)).2.2.2.1 (by decide) rfl rfl
    simpa [uintMax] using h

theorem lor_mod128_left (a b n : Nat) (hn : n ≤ 128) :
    ((a % 2 ^ 128) ||| b) % 2 ^ n = (a ||| b) % 2 ^ n := by
  apply Nat.eq_of_testBit_eq
  intro i
  simp only [Nat.testBit_mod_two_pow, Nat.testBit_lor]
  by_cases h : i < n
  · have h128 : i < 128 := lt_of_lt_of_le h hn
    simp [h, h128]
  · simp [h]

theorem lor_mod128_right (a b n : Nat) (hn : n ≤ 128) :
    (b ||| (a % 2 ^ 128)) % 2 ^ n = (b ||| a) % 2 ^ n := by
  apply Nat.eq_of_testBit_eq
  intro i
  simp only [Nat.testBit_mod_two_pow, Nat.testBit_lor]
  by_cases h : i < n
  · have h128 : i < 128 := lt_of_lt_of_le h hn
    simp [h, h128]
  · simp [h]

/-- C7: rotate reduces the shift modulo the bit width `w` of the rotated
value; the result follows the shift-or formula truncated to `w` bits; a
shift that reduces to 0 leaves the value unchanged; and left rotation by `s`
equals right rotation by `w - s % w` whenever `s % w ≠ 0`. -/
theorem rotate_spec (w x s : Nat) (hw : 0 < w) (h128 : w ≤ 128)
    (hx : x < 2 ^ w) :
    rotate true w x s
        = ((x <<< (s % w)) ||| (x >>> ((w - s % w) % w))) % 2 ^ w
    ∧ rotate false w x s
        = ((x >>> (s % w)) ||| (x <<< ((w - s % w) % w))) % 2 ^ w
    ∧ (s % w = 0 → rotate true w x s = x ∧ rotate false w x s = x)
    ∧ (s % w ≠ 0 → rotate true w x s = rotate false w x (w - s % w)) := by
  have hxle : x < 2 ^ 128 := lt_of_lt_of_le hx (Nat.pow_le_pow_right (by omega) h128)
  refine ⟨?_, ?_, ?_, ?_⟩
  · unfold rotate
    simp only
    exact lor_mod128_left _ _ _ h128
  · unfold rotate
    simp only
    exact lor_mod128_right _ _ _ h128
  · intro hs
    have hself : x ||| x = x := by simp
    constructor
    · show ((x <<< (s % w)) % 2 ^ 128 ||| (x >>> ((w - s % w) % w))) % 2 ^ w = x
      rw [hs, Nat.sub_zero, Nat.mod_self, Nat.shiftLeft_zero, Nat.shiftRight_zero,
        Nat.mod_eq_of_lt hxle, hself, Nat.mod_eq_of_lt hx]
    · show ((x >>> (s % w)) ||| (x <<< ((w - s % w) % w)) % 2 ^ 128) % 2 ^ w = x
      rw [hs, Nat.sub_zero, Nat.mod_self, Nat.shiftLeft_zero, Nat.shiftRight_zero,
        Nat.mod_eq_of_lt hxle, hself, Nat.mod_eq_of_lt hx]
  · intro hs
    have h1 : s % w < w := Nat.mod_lt _ hw
    have h2 : (w - s % w) % w = w - s % w := Nat.mod_eq_of_lt (by omega)
    have h3 : (w - (w - s % w)) % w = s % w := by
      have hsub : w - (w - s % w) = s % w := by omega
      rw [hsub]
      exact Nat.mod_eq_of_lt h1
    show ((x <<< (s % w)) % 2 ^ 128 ||| (x >>> ((w - s % w) % w))) % 2 ^ w
        = ((x >>> ((w - s % w) % w)) ||| (x <<< ((w - (w - s % w) % w) % w)) % 2 ^ 128) % 2 ^ w
    rw [h2, h3, Nat.lor_comm]

theorem rotate_spec_witness :
    0 < 8 ∧ 8 ≤ 128 ∧ (177 : Nat) < 2 ^ 8
    ∧ rotate true 8 177 3
        = ((177 <<< (3 % 8)) ||| (177 >>> ((8 - 3 % 8) % 8))) % 2 ^ 8
    ∧ rotate true 8 171 16 = 171
    ∧ rotate true 8 177 3 = rotate false 8 177 5 := by
  have h := rotate_spec 8 177 3 (by decide) (by decide) (by decide)
  have h' := rotate_spec 8 171 16 (by decide) (by decide) (by decide)
  refine ⟨by decide, by decide, by decide, h.1, (h'.2.2.1 (by decide)).1, ?_⟩
  have := h.2.2.2 (by decide)
  simpa using this

/-- C6: `raw_eq` fails with UB as soon as either operand's byte range carries
any pointer provenance (the left range is inspected first); a zero-sized type
compares equal trivially; and on clean, initialized, in-bounds ranges it
returns true exactly when the two ranges are byte-for-byte identical. -/
theorem raw_eq_spec (m : Mem) (size : Nat) (i j loff roff : Nat)
    (la ra : Alloc)
    (hfi : m.find i = some la) (hfj : m.find j = some ra)
    (hbl : loff + size ≤ la.size) (hbr : roff + size ≤ ra.size) :
    (∀ u v : Ptr, raw_eq_intrinsic m 0 u v = .ok true)
    ∧ (size ≠ 0 →
        ((la.bytes.drop loff).take size).any (fun b => b.prov.isSome) = true →
        raw_eq_intrinsic m size (.alloc i loff) (.alloc j roff)
          = .error .rawEqWithProvenance)
    ∧ (size ≠ 0 →
        ((la.bytes.drop loff).take size).any (fun b => b.prov.isSome) = false →
        ((la.bytes.drop loff).take size).all (fun b => b.init) = true →
        ((ra.bytes.drop roff).take size).any (fun b => b.prov.isSome) = true →
        raw_eq_intrinsic m size (.alloc i loff) (.alloc j roff)
          = .error .rawEqWithProvenance)
    ∧ (((la.bytes.drop loff).take size).any (fun b => b.prov.isSome) = false →
       ((la.bytes.drop loff).take size).all (fun b => b.init) = true →
       ((ra.bytes.drop roff).take size).any (fun b => b.prov.isSome) = false →
       ((ra.bytes.drop roff).take size).all (fun b => b.init) = true →
       (raw_eq_intrinsic m size (.alloc i loff) (.alloc j roff) = .ok true ↔
          ((la.bytes.drop loff).take size).map (fun b => b.val)
            = ((ra.bytes.drop roff).take size).map (fun b => b.val))) := by
  refine ⟨?_, ?_, ?_, ?_⟩
  · intro u v
    rfl
  · intro hsize hprov
    unfold raw_eq_intrinsic rawEqGetBytes
    simp [hsize, hfi, hbl, hprov]
  · intro hsize hprovl hinitl hprovr
    unfold raw_eq_intrinsic rawEqGetBytes
    simp [hsize, hfi, hfj, hbl, hbr, hprovl, hinitl, hprovr]
  · intro hprovl hinitl hprovr hinitr
    by_cases hsize : size = 0
    · subst hsize
      simp [raw_eq_intrinsic, rawEqGetBytes]
    · unfold raw_eq_intrinsic rawEqGetBytes
      simp [hsize, hfi, hfj, hbl, hbr, hprovl, hinitl, hprovr, hinitr]

theorem raw_eq_spec_witness :
    raw_eq_intrinsic memRawEq 4 (.alloc 0 0) (.alloc 1 0) = .ok true
    ∧ raw_eq_intrinsic memRawEq 4 (.alloc 2 0) (.alloc 1 0)
        = .error .rawEqWithProvenance
    ∧ raw_eq_intrinsic memRawEq 0 (.bare 99) (.alloc 0 3) = .ok true := by
  have h1 := (raw_eq_spec memRawEq 4 0 1 0 0 zeros4 zeros4 (by decide)
    (by decide) (by decide) (by decide)).2.2.2 (by decide) (by decide)
    (by decide) (by decide)
  have h2 := (raw_eq_spec memRawEq 4 2 1 0 0 provTainted4 zeros4 (by decide)
    (by decide) (by decide) (by decide)).2.1 (by decide) (by decide)
  have h3 := (raw_eq_spec memRawEq 0 0 1 0 0 zeros4 zeros4 (by decide)
    (by decide) (by decide) (by decide)).1 (.bare 99) (.alloc 0 3)
  exact ⟨h1.mpr (by decide), h2, h3⟩

theorem find_after_filter_out (l : List (Nat × Alloc)) (id : Nat) :
    (l.filter (fun q => q.1 != id)).find? (fun p => p.1 == id) = none := by
  rw [List.find?_eq_none]
  intro x hx
  have hmem := List.mem_filter.mp hx
  have hne := hmem.2
  simp only [bne_iff_ne, ne_eq] at hne
  simp [hne]

/-- C2 counterexample: when the first copy of `typed_swap` fails (here: the
left operand is a dangling place), the intrinsic returns the error early and
the scratch allocation it created (id `mem16.next = 1`) is still live in the
resulting memory — it is not released on the error path. -/
theorem typed_swap_scratch_leak :
    (typed_swap 4 (.alloc 7 0) (.alloc 0 0) mem16).1 = .error .danglingPointer
    ∧ ((typed_swap 4 (.alloc 7 0) (.alloc 0 0) mem16).2).find mem16.next
        = some ⟨0, List.replicate 4 ⟨0, none, false⟩⟩ := by
  exact ⟨by decide, by decide⟩

/-- C2 amended: `typed_swap` releases its scratch allocation before returning
whenever all three copies succeed; on an error after the scratch allocation
is made the error is returned early and the scratch is not released. -/
theorem typed_swap_releases_scratch_on_success (layoutSize : Nat)
    (left right : Ptr) (m : Mem)
    (hok : (typed_swap layoutSize left right m).1 = .ok ()) :
    ((typed_swap layoutSize left right m).2).find m.next = none := by
  unfold typed_swap at hok ⊢
  dsimp only at hok ⊢
  split at hok
  · simp at hok
  · split at hok
    · simp at hok
    · split at hok
      · simp at hok
      · split at hok
        · simp at hok
        · rename_i m5 hde
          show m5.find m.next = none
          have htemp : (m.allocate layoutSize).1 = Ptr.alloc m.next 0 := rfl
          rw [htemp] at hde
          unfold Mem.deallocate at hde
          dsimp only at hde
          split at hde
          · rename_i al hfind
            injection hde with h
            rw [← h]
            unfold Mem.find
            rw [find_after_filter_out]
            rfl
          · exact absurd hde (by simp)

theorem typed_swap_releases_scratch_on_success_witness :
    (typed_swap 1 (.alloc 0 0) (.alloc 0 1) memPair).1 = .ok ()
    ∧ ((typed_swap 1 (.alloc 0 0) (.alloc 0 1) memPair).2).find memPair.next
        = none := by
  exact ⟨by decide,
    typed_swap_releases_scratch_on_success 1 (.alloc 0 0) (.alloc 0 1) memPair
      (by decide)⟩

theorem exact_div_of_dvd (pw : Nat) (S : Nat) (x : Int) (hS : 0 < S)
    (hdvd : (S : Int) ∣ x) :
    exact_div pw true x (S : Int) = .ok (x.tdiv (S : Int)) := by
  have hSpos : (0 : Int) < (S : Int) := by exact_mod_cast hS
  have hS0 : (S : Int) ≠ 0 := by omega
  have hSne : ¬(true = true ∧ x = intMin pw ∧ (S : Int) = -1) := by
    rintro ⟨_, _, hc⟩
    omega
  have hrem : binaryRem pw true x (S : Int) = .ok 0 := by
    unfold binaryRem
    rw [if_neg hS0, if_neg hSne, Int.tmod_eq_zero_of_dvd hdvd]
  unfold exact_div
  rw [hrem]
  dsimp only
  rw [if_neg (show ¬(0 : Int) ≠ 0 from fun h => h rfl)]
  unfold binaryDiv
  rw [if_neg hS0, if_neg hSne]

theorem exact_div_zero (pw : Nat) (sgn : Bool) (S : Nat) (hS : 0 < S) :
    exact_div pw sgn 0 (S : Int) = .ok 0 := by
  have hSpos : (0 : Int) < (S : Int) := by exact_mod_cast hS
  have hS0 : (S : Int) ≠ 0 := by omega
  have hSne : ¬(sgn = true ∧ (0 : Int) = intMin pw ∧ (S : Int) = -1) := by
    rintro ⟨_, _, hc⟩
    omega
  have hrem : binaryRem pw sgn 0 (S : Int) = .ok 0 := by
    unfold binaryRem
    rw [if_neg hS0, if_neg hSne, Int.zero_tmod]
  unfold exact_div
  rw [hrem]
  dsimp only
  rw [if_neg (show ¬(0 : Int) ≠ 0 from fun h => h rfl)]
  unfold binaryDiv
  rw [if_neg hS0, if_neg hSne, Int.zero_tdiv]

theorem distanceTail_zero (pw : Nat) (m : Mem) (uns : Bool) (S : Nat)
    (a b : Ptr) (hS : 0 < S) :
    distanceTail pw m uns S a b 0 = .ok 0 := by
  unfold distanceTail
  dsimp only
  have hc : checkPtrAccess m (if (0 : Int) ≤ 0 then b else a) (0 : Int).natAbs
      = .ok () := by
    unfold checkPtrAccess
    simp
  rw [hc]
  exact exact_div_zero pw (!uns) S hS

theorem ptr_offset_from_offsets_eq (oia : Bool) (pw S : Nat) (m : Mem)
    (uns : Bool) (a b : Ptr) (t : Nat) (hpw : 0 < pw) (hS : 0 < S)
    (hoff : offsetsForDistance oia m a b = .ok (t, t)) :
    ptr_offset_from oia pw m uns S a b = .ok 0 := by
  unfold ptr_offset_from
  rw [hoff]
  dsimp only
  rw [if_neg (lt_irrefl t)]
  have hval : (2 ^ pw + t - t) % 2 ^ pw = 0 := by
    have h : 2 ^ pw + t - t = 2 ^ pw := Nat.add_sub_cancel (2 ^ pw) t
    rw [h, Nat.mod_self]
  rw [hval]
  have hts : toSigned pw 0 = 0 := by
    unfold toSigned
    rw [if_pos (by positivity)]
    simp
  rw [hts]
  rw [if_neg (lt_irrefl 0)]
  exact distanceTail_zero pw m uns S a b hS

/-- C3: the non-same-allocation outcomes of the pointer-distance intrinsic:
two bare integer pointers give 0 when numerically equal (for any memory —
no allocation check decides the result) and UB "different integers"
otherwise; on an `OFFSET_IS_ADDR` machine two pointers at the same absolute
address give 0 regardless of provenance; and two pointers into different
allocations (at different addresses) give UB "different allocations". -/
theorem ptr_offset_from_unrelated (pw S : Nat) (hpw : 0 < pw) (hS : 0 < S) :
    (∀ (m : Mem) (oia uns : Bool) (x : Nat),
        ptr_offset_from oia pw m uns S (.bare x) (.bare x) = .ok 0)
    ∧ (∀ (m : Mem) (uns : Bool) (a b : Ptr),
        Ptr.addr m a = Ptr.addr m b →
        ptr_offset_from true pw m uns S a b = .ok 0)
    ∧ (∀ (m : Mem) (oia uns : Bool) (x y : Nat), x ≠ y →
        ptr_offset_from oia pw m uns S (.bare x) (.bare y)
          = .error .differentIntegers)
    ∧ (∀ (m : Mem) (oia uns : Bool) (i ioff j joff : Nat), i ≠ j →
        (oia = true →
          Ptr.addr m (.alloc i ioff) ≠ Ptr.addr m (.alloc j joff)) →
        ptr_offset_from oia pw m uns S (.alloc i ioff) (.alloc j joff)
          = .error .differentAllocations) := by
  refine ⟨?_, ?_, ?_, ?_⟩
  · intro m oia uns x
    refine ptr_offset_from_offsets_eq oia pw S m uns _ _ x hpw hS ?_
    unfold offsetsForDistance tryGetAllocId
    simp
  · intro m uns a b haddr
    cases a with
    | bare x =>
        cases b with
        | bare y =>
            have hxy : x = y := by simpa [Ptr.addr] using haddr
            subst hxy
            refine ptr_offset_from_offsets_eq true pw S m uns _ _ x hpw hS ?_
            unfold offsetsForDistance tryGetAllocId
            simp
        | alloc j joff =>
            refine ptr_offset_from_offsets_eq true pw S m uns _ _ 0 hpw hS ?_
            unfold offsetsForDistance tryGetAllocId
            simp [haddr]
    | alloc i ioff =>
        cases b with
        | bare y =>
            refine ptr_offset_from_offsets_eq true pw S m uns _ _ 0 hpw hS ?_
            unfold offsetsForDistance tryGetAllocId
            simp [haddr]
        | alloc j joff =>
            refine ptr_offset_from_offsets_eq true pw S m uns _ _ 0 hpw hS ?_
            unfold offsetsForDistance tryGetAllocId
            simp [haddr]
  · intro m oia uns x y hxy
    have hofs : offsetsForDistance oia m (.bare x) (.bare y)
        = .error .differentIntegers := by
      unfold offsetsForDistance tryGetAllocId
      simp [hxy]
    unfold ptr_offset_from
    rw [hofs]
  · intro m oia uns i ioff j joff hij haddr
    have hofs : offsetsForDistance oia m (.alloc i ioff) (.alloc j joff)
        = .error .differentAllocations := by
      unfold offsetsForDistance tryGetAllocId
      cases oia with
      | false => simp [hij]
      | true => simp [hij, haddr rfl]
    unfold ptr_offset_from
    rw [hofs]

theorem ptr_offset_from_unrelated_witness :
    ptr_offset_from false 8 mem16 false 2 (.bare 5) (.bare 5) = .ok 0
    ∧ ptr_offset_from true 8 mem16 true 2 (.alloc 0 3) (.bare 3) = .ok 0
    ∧ ptr_offset_from false 8 mem16 false 2 (.bare 5) (.bare 6)
        = .error .differentIntegers
    ∧ ptr_offset_from false 8 mem16 false 2 (.alloc 0 0) (.alloc 1 0)
        = .error .differentAllocations := by
  have h := ptr_offset_from_unrelated 8 2 (by decide) (by decide)
  exact ⟨h.1 mem16 false false 5,
    h.2.1 mem16 true (.alloc 0 3) (.bare 3) (by decide),
    h.2.2.1 mem16 false false 5 6 (by decide),
    h.2.2.2 mem16 false false 0 0 1 0 (by decide) (by intro h'; cases h')⟩

/-- C1 counterexample: for two pointers into the same 16-byte allocation at
offsets 4 and 10 with pointee size 2, the signed distance intrinsic applied
to `(p4, p10)` returns -3 (the code computes `a_offset - b_offset`), not the
3 the claim's `offset(b) - offset(a)` formula predicts; swapping the
arguments returns 3, not -3. -/
theorem ptr_offset_from_sign_counterexample :
    ptr_offset_from false 8 mem16 false 2 (.alloc 0 4) (.alloc 0 10) = .ok (-3)
    ∧ ptr_offset_from false 8 mem16 false 2 (.alloc 0 10) (.alloc 0 4) = .ok 3
    ∧ ((-3 : Int) ≠ ((10 : Int) - 4) / 2) := by
  exact ⟨by decide, by decide, by decide⟩

/-- C1 amended: for two pointers `a`, `b` into the same allocation with
pointee size `S`, the signed pointer-distance intrinsic returns
`(offset(a) - offset(b)) / S` — the first argument's offset minus the
second's — whenever the offsets are in bounds, the allocation is small enough
for the distance to be representable, and the byte distance is an exact
multiple of `S`. -/
theorem ptr_offset_from_signed_same_alloc (oia : Bool) (pw S : Nat) (m : Mem)
    (id aoff boff : Nat) (al : Alloc)
    (hpw : 0 < pw) (hS : 0 < S)
    (hfind : m.find id = some al)
    (ha : aoff ≤ al.size) (hb : boff ≤ al.size)
    (hsz : al.size < 2 ^ (pw - 1))
    (hdvd : (S : Int) ∣ ((aoff : Int) - (boff : Int))) :
    ptr_offset_from oia pw m false S (.alloc id aoff) (.alloc id boff)
      = .ok (((aoff : Int) - (boff : Int)).tdiv (S : Int)) := by
  have hpow : 2 ^ pw = 2 ^ (pw - 1) * 2 := by
    rw [← pow_succ]
    congr 1
    omega
  have hppos : 0 < 2 ^ (pw - 1) := Nat.pos_pow_of_pos _ (by norm_num)
  by_cases heq : aoff = boff
  · subst heq
    have hres : ptr_offset_from oia pw m false S (.alloc id aoff) (.alloc id aoff)
        = .ok 0 := by
      refine ptr_offset_from_offsets_eq oia pw S m false _ _
        (if oia then 0 else aoff) hpw hS ?_
      unfold offsetsForDistance tryGetAllocId
      cases oia with
      | false => simp
      | true => simp
    rw [hres]
    rw [Int.sub_self, Int.zero_tdiv]
  · have haddr : Ptr.addr m (.alloc id aoff) ≠ Ptr.addr m (.alloc id boff) := by
      unfold Ptr.addr
      dsimp only
      rw [hfind]
      dsimp only
      omega
    have hofs : offsetsForDistance oia m (.alloc id aoff) (.alloc id boff)
        = .ok (aoff, boff) := by
      unfold offsetsForDistance tryGetAllocId
      cases oia with
      | false => simp
      | true => simp [haddr]
    unfold ptr_offset_from
    rw [hofs]
    dsimp only
    by_cases hlt : aoff < boff
    · rw [if_pos hlt]
      rw [if_neg (show ¬false = true by simp)]
      have hval : (2 ^ pw + aoff - boff) % 2 ^ pw = 2 ^ pw - (boff - aoff) := by
        have h1 : 2 ^ pw + aoff - boff = 2 ^ pw - (boff - aoff) := by omega

        rw [h1]
        apply Nat.mod_eq_of_lt
        omega
      rw [hval]
      have hcast : ((2 : Int) ^ (pw - 1)) = ((2 ^ (pw - 1) : Nat) : Int) := by
        push_cast
        ring
      have htos : toSigned pw (2 ^ pw - (boff - aoff))
          = -((boff - aoff : Nat) : Int) := by
        unfold toSigned
        rw [if_neg (by omega)]
        have hle : boff - aoff ≤ 2 ^ pw := by omega
        rw [Nat.cast_sub hle]
        push_cast
        ring
      rw [htos]
      rw [if_neg]
      · unfold distanceTail
        dsimp only
        rw [if_neg (by omega)]
        have hnabs : (-((boff - aoff : Nat) : Int)).natAbs = boff - aoff := by
          simp
        rw [hnabs]
        have hchk : checkPtrAccess m (.alloc id aoff) (boff - aoff) = .ok () := by
          unfold checkPtrAccess
          rw [if_neg (by omega)]
          dsimp only
          rw [hfind]
          dsimp only
          rw [if_pos (by omega)]
        rw [hchk]
        have hx : ((aoff : Int) - (boff : Int)) = -((boff - aoff : Nat) : Int) := by
          omega
        rw [← hx]
        exact exact_div_of_dvd pw S _ hS hdvd
      · rintro (hc | hc)
        · omega
        · rw [hcast] at hc
          omega
    · rw [if_neg hlt]
      have hval : (2 ^ pw + aoff - boff) % 2 ^ pw = aoff - boff := by
        have h1 : 2 ^ pw + aoff - boff = 2 ^ pw + (aoff - boff) := by omega
        rw [h1, Nat.add_mod_left]
        apply Nat.mod_eq_of_lt
        omega
      rw [hval]
      have htos : toSigned pw (aoff - boff) = ((aoff - boff : Nat) : Int) := by
        unfold toSigned
        rw [if_pos (by omega)]
      rw [htos]
      rw [if_neg (by omega)]
      unfold distanceTail
      dsimp only
      rw [if_pos (by omega)]
      have hnabs : (((aoff - boff : Nat) : Int)).natAbs = aoff - boff := by
        simp
      rw [hnabs]
      have hchk : checkPtrAccess m (.alloc id boff) (aoff - boff) = .ok () := by
        unfold checkPtrAccess
        rw [if_neg (by omega)]
        dsimp only
        rw [hfind]
        dsimp only
        rw [if_pos (by omega)]
      rw [hchk]
      have hx : ((aoff : Int) - (boff : Int)) = ((aoff - boff : Nat) : Int) := by
        omega
      rw [← hx]
      exact exact_div_of_dvd pw S _ hS hdvd

theorem ptr_offset_from_signed_same_alloc_witness :
    ptr_offset_from false 8 mem16 false 2 (.alloc 0 10) (.alloc 0 4)
        = .ok (((10 : Int) - 4).tdiv 2)
    ∧ ptr_offset_from false 8 mem16 false 2 (.alloc 0 4) (.alloc 0 10)
        = .ok (((4 : Int) - 10).tdiv 2) := by
  refine ⟨?_, ?_⟩
  · have h := ptr_offset_from_signed_same_alloc false 8 2 mem16 0 10 4
      ⟨0, List.replicate 16 ⟨0, none, true⟩⟩ (by decide) (by decide) (by decide)
      (by decide) (by decide) (by decide) (by decide)
    simpa using h
  · have h := ptr_offset_from_signed_same_alloc false 8 2 mem16 0 4 10
      ⟨0, List.replicate 16 ⟨0, none, true⟩⟩ (by decide) (by decide) (by decide)
      (by decide) (by decide) (by decide) (by decide)
    simpa using h

end CEval
